import Mathlib

/-!
# Verification of the Pulumi Firebase infrastructure toolkit

Shallow embedding of the repository's Pulumi program
(`infrastructure/pulumi/{firebase,github,android,index}.ts` and the
Automation-API CLI wrapper) together with the shell-side project-name
validation/sanitization, and proofs of the specified properties.

Pulumi programs are declarative: a run declares a list of resources with
`dependsOn` edges, and the engine creates them (a resource whose dependency
failed is not created).  We embed a run as the list of resource
declarations it produces, in declaration order, and model the engine's
execution where a claim needs it (success/failure of individual steps).
-/

namespace FirebaseStarter

/-- Configuration record of `createFirebaseEnvironment`
(`FirebaseEnvironmentConfig` in `firebase.ts`).  Optional TS fields become
`Option`. -/
structure FirebaseEnvironmentConfig where
  projectName : String
  environment : String
  billingAccount : Option String
  organizationId : Option String
  enableAuth : Bool
  enableFirestore : Bool
  enableFunctions : Bool
  enableStorage : Bool
  enableHosting : Bool
  androidPackageName : String
  iosBundleId : String
  firestoreRegion : String
  functionsRegion : String
deriving DecidableEq, Repr

/-- The `requiredApis` list of `firebase.ts` (lines 75–103): a literal
baseline array, then conditional `push`es for the auth, firestore, storage
and functions feature flags, in that order.  Note the baseline already
contains `cloudfunctions.googleapis.com` and `cloudbuild.googleapis.com`. -/
def requiredApis (enableAuth enableFirestore enableStorage enableFunctions : Bool) :
    List String :=
  ["firebase.googleapis.com",
   "firebasehosting.googleapis.com",
   "cloudfunctions.googleapis.com",
   "cloudbuild.googleapis.com",
   "cloudresourcemanager.googleapis.com",
   "serviceusage.googleapis.com",
   "iam.googleapis.com",
   "iamcredentials.googleapis.com"]
  ++ (if enableAuth then ["identitytoolkit.googleapis.com"] else [])
  ++ (if enableFirestore then ["firestore.googleapis.com"] else [])
  ++ (if enableStorage then
        ["storage.googleapis.com", "storage-api.googleapis.com"] else [])
  ++ (if enableFunctions then
        ["cloudfunctions.googleapis.com", "cloudbuild.googleapis.com",
         "run.googleapis.com"] else [])

/-- `api.replace(/\./g, "-")` from `firebase.ts` line 108. -/
def dotsToDashes (s : String) : String :=
  String.mk (s.data.map (fun c => if c = '.' then '-' else c))

/-- `role.replace(/\//g, "-")` from `firebase.ts` line 284. -/
def slashesToDashes (s : String) : String :=
  String.mk (s.data.map (fun c => if c = '/' then '-' else c))

/-- The IAM role list granted to the CI/CD service account
(`firebase.ts` lines 272–279). -/
def serviceAccountRoles : List String :=
  ["roles/firebase.admin",
   "roles/firebaseauth.admin",
   "roles/datastore.user",
   "roles/cloudfunctions.admin",
   "roles/storage.admin",
   "roles/iam.serviceAccountUser"]

/-- One resource declaration made by `createFirebaseEnvironment`.  Each
constructor corresponds to one `new ...` in `firebase.ts`, carrying its
Pulumi logical name and the arguments the claims are about. -/
inductive Resource where
  | project (name : String) (projectId : String) (protect : Bool)
  | apiService (name : String) (service : String)
  | firebaseInit (name : String)
  | webApp (name : String)
  | webConfig (name : String)
  | androidApp (name : String)
  | googleServicesJson (name : String)
  | iosApp (name : String)
  | googleServicesPlist (name : String)
  | firestoreDatabase (name : String) (region : String)
  | storageBucket (name : String) (bucketName : String)
  | serviceAccount (name : String) (accountId : String)
  | iamMember (name : String) (role : String)
  | serviceAccountKey (name : String)
  | firestoreRules (name : String)
  | storageRules (name : String)
deriving DecidableEq, Repr

/-- The resource declarations produced by one call of
`createFirebaseEnvironment` (`firebase.ts` lines 31–395), in source
declaration order.  The `if` structure mirrors the source exactly:
the Firestore database and the storage bucket are declared only under
their feature flags, and the two rules deployments sit inside
`if (enableFirestore || enableStorage)` with inner guards
`enableFirestore && firestoreDatabase` / `enableStorage && storageBucket`
(a defined-ness test that holds exactly when the respective flag is set). -/
def createFirebaseEnvironmentPlan (config : FirebaseEnvironmentConfig) :
    List Resource :=
  [Resource.project (config.projectName ++ "-project") config.projectName
      (config.environment == "prod")]
  ++ (requiredApis config.enableAuth config.enableFirestore
        config.enableStorage config.enableFunctions).map
      (fun api =>
        Resource.apiService (config.projectName ++ "-api-" ++ dotsToDashes api) api)
  ++ [Resource.firebaseInit (config.projectName ++ "-firebase-init"),
      Resource.webApp (config.projectName ++ "-web-app"),
      Resource.webConfig (config.projectName ++ "-web-config"),
      Resource.androidApp (config.projectName ++ "-android-app"),
      Resource.googleServicesJson (config.projectName ++ "-google-services-json"),
      Resource.iosApp (config.projectName ++ "-ios-app"),
      Resource.googleServicesPlist (config.projectName ++ "-google-services-plist")]
  ++ (if config.enableFirestore then
        [Resource.firestoreDatabase (config.projectName ++ "-firestore")
            config.firestoreRegion]
      else [])
  ++ (if config.enableStorage then
        [Resource.storageBucket (config.projectName ++ "-storage")
            (config.projectName ++ ".appspot.com")]
      else [])
  ++ [Resource.serviceAccount (config.projectName ++ "-sa")
        (config.projectName ++ "-cicd")]
  ++ serviceAccountRoles.map
      (fun role =>
        Resource.iamMember
          (config.projectName ++ "-sa-" ++ dotsToDashes (slashesToDashes role))
          role)
  ++ [Resource.serviceAccountKey (config.projectName ++ "-sa-key")]
  ++ (if config.enableFirestore || config.enableStorage then
        (if config.enableFirestore then
           [Resource.firestoreRules (config.projectName ++ "-firestore-rules")]
         else [])
        ++ (if config.enableStorage then
              [Resource.storageRules (config.projectName ++ "-storage-rules")]
            else [])
      else [])

/-- The protect flags of the `gcp.organizations.Project` resources in a
plan (there is exactly one such resource per environment). -/
def projectProtectFlags (plan : List Resource) : List Bool :=
  plan.filterMap (fun r =>
    match r with
    | Resource.project _ _ protect => some protect
    | _ => none)

/-- Is this resource a database-provisioning call
(`gcloud firestore databases create`)? -/
def isFirestoreProvision (r : Resource) : Bool :=
  match r with
  | Resource.firestoreDatabase _ _ => true
  | _ => false

/-- Is this resource a Firestore-rules deployment call
(`firebase deploy --only firestore:rules`)? -/
def isFirestoreRulesDeploy (r : Resource) : Bool :=
  match r with
  | Resource.firestoreRules _ => true
  | _ => false

/-- Is this resource a storage-bucket creation (`gcp.storage.Bucket`)? -/
def isStorageBucketCreate (r : Resource) : Bool :=
  match r with
  | Resource.storageBucket _ _ => true
  | _ => false

/-- Is this resource a storage-rules deployment call
(`firebase deploy --only storage`)? -/
def isStorageRulesDeploy (r : Resource) : Bool :=
  match r with
  | Resource.storageRules _ => true
  | _ => false

/-! ## The Secret Publisher (`github.ts`) -/

/-- JavaScript `s.split("/")`: splits on every occurrence of `"/"`,
keeping empty pieces, and yields `[s]` when `s` has no `"/"`. -/
def splitSlashGo : List Char → List Char → List String
  | [], acc => [String.mk acc.reverse]
  | c :: cs, acc =>
      if c = '/' then String.mk acc.reverse :: splitSlashGo cs []
      else splitSlashGo cs (c :: acc)

/-- `repository.split("/")` from `github.ts` line 29. -/
def splitSlash (s : String) : List String :=
  splitSlashGo s.data []

/-- `const [owner, _] = repository.split("/")`: the first component.
It is bound in `setupGitHubSecrets` but never used afterwards. -/
def repoOwner (repository : String) : Option String :=
  (splitSlash repository).get? 0

/-- `const [_, repo] = repository.split("/")`: the second component;
`none` models JavaScript `undefined` when the split has fewer than two
pieces. -/
def repoName (repository : String) : Option String :=
  (splitSlash repository).get? 1

/-- JavaScript `env.toUpperCase()` on the ASCII environment names:
uppercase every character. -/
def jsToUpperCase (s : String) : String :=
  String.mk (s.data.map Char.toUpper)

/-- One `github.ActionsSecret` declaration: the repository argument every
write receives (the parsed `repo` component, possibly undefined) and the
secret's name.  The plaintext value is the corresponding input field,
passed through unchanged; it plays no role in the claims. -/
structure SecretWrite where
  repository : Option String
  secretName : String
deriving DecidableEq, Repr

/-- The four per-environment secrets pushed by the loop body of
`setupGitHubSecrets` (`github.ts` lines 37–83), in push order. -/
def perEnvSecretWrites (repo : Option String) (env : String) : List SecretWrite :=
  [⟨repo, "FIREBASE_PROJECT_ID_" ++ jsToUpperCase env⟩,
   ⟨repo, "FIREBASE_SERVICE_ACCOUNT_" ++ jsToUpperCase env⟩,
   ⟨repo, "GOOGLE_SERVICES_JSON_" ++ jsToUpperCase env⟩,
   ⟨repo, "GOOGLE_SERVICES_PLIST_" ++ jsToUpperCase env⟩]

/-- The four shared Android-signing secrets (`github.ts` lines 89–121). -/
def sharedSecretWrites (repo : Option String) : List SecretWrite :=
  [⟨repo, "ANDROID_KEYSTORE"⟩,
   ⟨repo, "KEYSTORE_PASSWORD"⟩,
   ⟨repo, "KEY_PASSWORD"⟩,
   ⟨repo, "KEY_ALIAS"⟩]

/-- All `github.ActionsSecret` declarations of one `setupGitHubSecrets`
run (`github.ts` lines 25–132), in declaration order: four per environment
(loop over `environments`), then the four shared ones. -/
def setupGitHubSecretWrites (repository : String) (environments : List String) :
    List SecretWrite :=
  (environments.flatMap (perEnvSecretWrites (repoName repository)))
  ++ sharedSecretWrites (repoName repository)

/-- The secret names of one run, in write order. -/
def secretNamesOf (repository : String) (environments : List String) : List String :=
  (setupGitHubSecretWrites repository environments).map SecretWrite.secretName

/-- `pulumi.all` over the `id` outputs of the declared secrets: resolves
to the list of ids when every write succeeded, and has no resolved value
(`none`) as soon as any write failed. -/
def resolveAll : List (Option String) → Option (List String)
  | [] => some []
  | none :: _ => none
  | some x :: rest => (resolveAll rest).map (fun l => x :: l)

/-- `secretsConfigured` (`github.ts` lines 127–131):
`pulumi.all(createdSecrets.map(s => s.id)).apply(ids => ids.length > 0)`,
evaluated on the per-write outcomes (`some id` for a successful write,
`none` for a failed one). -/
def secretsConfiguredOf (outcomes : List (Option String)) : Option Bool :=
  (resolveAll outcomes).map (fun ids => decide (ids.length > 0))

/-! ## The Signing-Key Generator (`android.ts`) -/

/-- Outcome of the three local commands of `generateAndroidSigningKey`
(`android.ts` lines 50–93): `keytool -genkey` (writes
`/tmp/{alias}.jks`), `cat | base64` (dependsOn the former), and the
cleanup `rm -f` (dependsOn the base64 step). -/
structure KeystoreRunOutcome where
  keytoolOk : Bool
  base64Ok : Bool
  cleanupOk : Bool
deriving DecidableEq, Repr

/-- Whether the intermediate keystore file `/tmp/{alias}.jks` is still on
disk after the Pulumi run.  Engine semantics: a command whose `dependsOn`
target failed is not executed.  `keytool -genkey` writes the file exactly
when it succeeds; `rm -f` removes it exactly when it runs and succeeds. -/
def keystoreFileRemains (o : KeystoreRunOutcome) : Bool :=
  if o.keytoolOk then
    if o.base64Ok then
      if o.cleanupOk then false
      else true
    else true
  else false

/-! ## Web API key extraction (`firebase.ts` lines 379–394) -/

/-- A JSON value, the shape `JSON.parse` produces on success. -/
inductive Json where
  | null
  | bool (b : Bool)
  | num (n : Int)
  | str (s : String)
  | arr (elems : List Json)
  | obj (fields : List (String × Json))

/-- JavaScript property access `o.k` on a parsed value: defined only on
objects, first binding wins. -/
def Json.getField : Json → String → Option Json
  | Json.obj fields, k =>
      (fields.find? (fun f => f.1 == k)).map (fun f => f.2)
  | _, _ => none

/-- `parsed.sdkConfig?.apiKey` (optional chaining): `none` models
JavaScript `undefined`. -/
def sdkConfigApiKey (parsed : Json) : Option Json :=
  (parsed.getField "sdkConfig").bind (fun sc => sc.getField "apiKey")

/-- The `webApiKey` apply of `firebase.ts` lines 382–389:
`try { const parsed = JSON.parse(config); return parsed.sdkConfig?.apiKey || ""; }
catch { return ""; }` evaluated on the outcome of `JSON.parse` (`Except.error`
when the string does not parse).  `x || ""` returns `x` for a truthy value
and `""` for a falsy one (`undefined`, `null`, `false`, `0`, `""`). -/
def extractWebApiKey (parseResult : Except String Json) : String :=
  match parseResult with
  | Except.error _ => ""
  | Except.ok parsed =>
      match sdkConfigApiKey parsed with
      | some (Json.str s) => if s = "" then "" else s
      | _ => ""

/-! ## The CLI destroy subcommand (`cli.ts`) -/

/-- The set of stacks stored in the Pulumi backend. -/
structure PulumiBackend where
  stackNames : List String
deriving DecidableEq, Repr

/-- `LocalWorkspace.selectStack` (Automation API): selects an existing
stack; fails when no stored stack state of that name exists; never
creates a stack. -/
def selectStack (backend : PulumiBackend) (stackName : String) :
    Except String PulumiBackend :=
  if stackName ∈ backend.stackNames then Except.ok backend
  else Except.error ("no stack named " ++ stackName ++ " found")

/-- `LocalWorkspace.createOrSelectStack` (Automation API), used by the
`deploy` subcommand: creates the stack when absent. -/
def createOrSelectStack (backend : PulumiBackend) (stackName : String) :
    PulumiBackend :=
  if stackName ∈ backend.stackNames then backend
  else ⟨stackName :: backend.stackNames⟩

/-- The `destroy` function of `cli.ts` (lines 215–240): select the stack;
on selection failure the `catch` prints the error and exits with status 1
(no stack is created); on success run `stack.destroy()`, whose own failure
also lands in the `catch` (exit 1), and exit 0 otherwise.  Returns the
process exit status and the resulting backend. -/
def destroyCmd (backend : PulumiBackend) (stackName : String)
    (stackDestroyOk : Bool) : Nat × PulumiBackend :=
  match selectStack backend stackName with
  | Except.error _ => (1, backend)
  | Except.ok b => if stackDestroyOk then (0, b) else (1, b)

/-! ## Project naming (`index.ts` line 49, scripts) -/

/-- `validate_project_name` from `scripts/helpers/validation-helper.sh`:
the name must match `^[a-z_][a-z0-9_]*$` (ASCII ranges `a`–`z` =
code points 97–122, `0`–`9` = 48–57). -/
def validate_project_name (name : String) : Bool :=
  match name.data with
  | [] => false
  | c :: cs =>
      ((97 ≤ c.toNat && c.toNat ≤ 122) || c == '_')
      && cs.all (fun x =>
           (97 ≤ x.toNat && x.toNat ≤ 122)
           || (48 ≤ x.toNat && x.toNat ≤ 57)
           || x == '_')

/-- The bash substitution `FIREBASE_PROJECT_BASE` of
`scripts/setup-firebase-infrastructure.sh` line 126 (pattern `_`,
replacement hyphen, all occurrences): every underscore of the validated
project name is replaced by a hyphen before it is handed to Pulumi as
`projectBaseName`. -/
def sanitizeProjectBase (name : String) : String :=
  String.mk (name.data.map (fun c => if c = '_' then '-' else c))

/-- `` const projectName = `${projectBaseName}-${env}` `` from `index.ts`
line 49; `firebase.ts` uses it verbatim as the `projectId` of the created
project. -/
def projectNameFor (projectBaseName env : String) : String :=
  projectBaseName ++ "-" ++ env

/-- Is the string free of ASCII uppercase letters (code points 65–90)? -/
def isLowercaseStr (s : String) : Bool :=
  s.data.all (fun c => !(65 ≤ c.toNat && c.toNat ≤ 90))

/-- Is the string free of underscores? -/
def noUnderscore (s : String) : Bool :=
  s.data.all (fun c => c != '_')

/-! ## Spec-side definition for claim C10 -/

/-- Modelled from the spec claim's words: "the substring after the first
`/`" of a repository identifier (`none` when there is no `/`).  This is
the comparison point for C10; the source itself takes the second
`split("/")` component. -/
def specAfterFirstSlash (s : String) : Option String :=
  match splitSlash s with
  | [] => none
  | [_] => none
  | _ :: rest => some (String.intercalate "/" rest)

/-! ## General helper lemmas on strings and lists -/

theorem string_append_left_cancel {p u v : String} (h : p ++ u = p ++ v) : u = v := by
  have hd := congrArg String.data h
  rw [String.data_append, String.data_append] at hd
  exact String.ext (List.append_cancel_left hd)

theorem string_append_prefix_or {p q u v : String} (h : p ++ u = q ++ v) :
    p.data <+: q.data ∨ q.data <+: p.data := by
  have hd := congrArg String.data h
  rw [String.data_append, String.data_append] at hd
  rcases List.append_eq_append_iff.mp hd with ⟨a, ha, _⟩ | ⟨c, hc, _⟩
  · exact Or.inl ⟨a, ha.symm⟩
  · exact Or.inr ⟨c, hc.symm⟩

theorem append_ne_of_incomparable {p q : String}
    (hp : ¬ p.data <+: q.data) (hq : ¬ q.data <+: p.data) (u v : String) :
    p ++ u ≠ q ++ v :=
  fun h => (string_append_prefix_or h).elim hp hq

theorem append_ne_of_not_prefix_right {p s : String}
    (hp : ¬ p.data <+: s.data) (u : String) : p ++ u ≠ s := by
  intro h
  exact hp ⟨u.data, by rw [← String.data_append, h]⟩

/-! ## Lemmas about the Secret Publisher's names -/

theorem perEnv_names_eq (repo : Option String) (e : String) :
    (perEnvSecretWrites repo e).map SecretWrite.secretName =
      ["FIREBASE_PROJECT_ID_" ++ jsToUpperCase e,
       "FIREBASE_SERVICE_ACCOUNT_" ++ jsToUpperCase e,
       "GOOGLE_SERVICES_JSON_" ++ jsToUpperCase e,
       "GOOGLE_SERVICES_PLIST_" ++ jsToUpperCase e] := rfl

theorem shared_names_eq (repo : Option String) :
    (sharedSecretWrites repo).map SecretWrite.secretName =
      ["ANDROID_KEYSTORE", "KEYSTORE_PASSWORD", "KEY_PASSWORD", "KEY_ALIAS"] := rfl

/-- Two per-environment secret names can only coincide when the two
environment names agree after uppercasing. -/
theorem perEnv_name_inter {repo₁ repo₂ : Option String} {e₁ e₂ n : String}
    (h₁ : n ∈ (perEnvSecretWrites repo₁ e₁).map SecretWrite.secretName)
    (h₂ : n ∈ (perEnvSecretWrites repo₂ e₂).map SecretWrite.secretName) :
    jsToUpperCase e₁ = jsToUpperCase e₂ := by
  rw [perEnv_names_eq] at h₁ h₂
  simp only [List.mem_cons, List.not_mem_nil, or_false] at h₁ h₂
  rcases h₁ with h₁ | h₁ | h₁ | h₁ <;> rcases h₂ with h₂ | h₂ | h₂ | h₂ <;>
    first
      | exact string_append_left_cancel (h₁.symm.trans h₂)
      | exact absurd (h₁.symm.trans h₂)
          (append_ne_of_incomparable (by decide) (by decide) _ _)

/-- A per-environment secret name never equals a shared secret name. -/
theorem perEnv_name_ne_shared {repo₁ repo₂ : Option String} {e n : String}
    (h₁ : n ∈ (perEnvSecretWrites repo₁ e).map SecretWrite.secretName)
    (h₂ : n ∈ (sharedSecretWrites repo₂).map SecretWrite.secretName) : False := by
  rw [perEnv_names_eq] at h₁
  rw [shared_names_eq] at h₂
  simp only [List.mem_cons, List.not_mem_nil, or_false] at h₁ h₂
  rcases h₁ with h₁ | h₁ | h₁ | h₁ <;> rcases h₂ with h₂ | h₂ | h₂ | h₂ <;>
    exact append_ne_of_not_prefix_right (by decide) _ (h₁.symm.trans h₂)

theorem perEnv_names_nodup (repo : Option String) (e : String) :
    ((perEnvSecretWrites repo e).map SecretWrite.secretName).Nodup := by
  have h12 : "FIREBASE_PROJECT_ID_" ++ jsToUpperCase e
      ≠ "FIREBASE_SERVICE_ACCOUNT_" ++ jsToUpperCase e :=
    append_ne_of_incomparable (by decide) (by decide) _ _
  have h13 : "FIREBASE_PROJECT_ID_" ++ jsToUpperCase e
      ≠ "GOOGLE_SERVICES_JSON_" ++ jsToUpperCase e :=
    append_ne_of_incomparable (by decide) (by decide) _ _
  have h14 : "FIREBASE_PROJECT_ID_" ++ jsToUpperCase e
      ≠ "GOOGLE_SERVICES_PLIST_" ++ jsToUpperCase e :=
    append_ne_of_incomparable (by decide) (by decide) _ _
  have h23 : "FIREBASE_SERVICE_ACCOUNT_" ++ jsToUpperCase e
      ≠ "GOOGLE_SERVICES_JSON_" ++ jsToUpperCase e :=
    append_ne_of_incomparable (by decide) (by decide) _ _
  have h24 : "FIREBASE_SERVICE_ACCOUNT_" ++ jsToUpperCase e
      ≠ "GOOGLE_SERVICES_PLIST_" ++ jsToUpperCase e :=
    append_ne_of_incomparable (by decide) (by decide) _ _
  have h34 : "GOOGLE_SERVICES_JSON_" ++ jsToUpperCase e
      ≠ "GOOGLE_SERVICES_PLIST_" ++ jsToUpperCase e :=
    append_ne_of_incomparable (by decide) (by decide) _ _
  rw [perEnv_names_eq]
  simp [List.nodup_cons, h12, h13, h14, h23, h24, h34]

theorem secretNamesOf_eq (repository : String) (envs : List String) :
    secretNamesOf repository envs =
      (envs.flatMap
        (fun e => (perEnvSecretWrites (repoName repository) e).map SecretWrite.secretName))
      ++ (sharedSecretWrites (repoName repository)).map SecretWrite.secretName := by
  rw [secretNamesOf, setupGitHubSecretWrites, List.map_append, List.map_flatMap]

theorem perEnv_flatMap_nodup (repo : Option String) (envs : List String)
    (hnd : (envs.map jsToUpperCase).Nodup) :
    (envs.flatMap
      (fun e => (perEnvSecretWrites repo e).map SecretWrite.secretName)).Nodup := by
  induction envs with
  | nil => simp
  | cons e rest ih =>
      simp only [List.map_cons, List.nodup_cons] at hnd
      rw [List.flatMap_cons, List.nodup_append]
      refine ⟨perEnv_names_nodup repo e, ih hnd.2, ?_⟩
      intro n hn hn'
      rw [List.mem_flatMap] at hn'
      obtain ⟨e', he', hne'⟩ := hn'
      apply hnd.1
      rw [perEnv_name_inter hn hne']
      exact List.mem_map_of_mem jsToUpperCase he'

/-- With pairwise-distinct uppercased environment names, all secret names
of one run are distinct. -/
theorem secretNames_nodup (repository : String) (envs : List String)
    (hnd : (envs.map jsToUpperCase).Nodup) :
    (secretNamesOf repository envs).Nodup := by
  rw [secretNamesOf_eq, List.nodup_append]
  refine ⟨perEnv_flatMap_nodup _ envs hnd, by rw [shared_names_eq]; decide, ?_⟩
  intro n hn hn'
  rw [List.mem_flatMap] at hn
  obtain ⟨e', _, hne'⟩ := hn
  exact perEnv_name_ne_shared hne' hn'

theorem setupGitHubSecretWrites_length (repository : String) (envs : List String) :
    (setupGitHubSecretWrites repository envs).length = 4 * envs.length + 4 := by
  rw [setupGitHubSecretWrites, List.length_append]
  have h : (envs.flatMap (perEnvSecretWrites (repoName repository))).length
      = 4 * envs.length := by
    induction envs with
    | nil => rfl
    | cons e rest ih =>
        rw [List.flatMap_cons, List.length_append, ih]
        simp [perEnvSecretWrites]
        ring
  rw [h]
  rfl

/-- Helper: filtering project resources out of an API-service map yields
nothing. -/
theorem projectProtectFlags_apiServiceMap (pn : String) (apis : List String) :
    projectProtectFlags (apis.map
      (fun api => Resource.apiService (pn ++ "-api-" ++ dotsToDashes api) api)) = [] := by
  induction apis with
  | nil => rfl
  | cons a l ih =>
      rw [List.map_cons, projectProtectFlags, List.filterMap_cons]
      exact ih

/-! ## Claim C1 -/

/-- C1, counterexample: the claim "the authentication API is enabled only
if enableAuth, …, the functions/build/execution APIs (cloudfunctions,
cloudbuild, run) only if enableFunctions is true, each API enabled exactly
once" fails on the code: `cloudfunctions.googleapis.com` is part of the
fixed baseline, so it is requested even with `enableFunctions = false`,
and it is requested twice (not exactly once) with `enableFunctions = true`
(identically for `cloudbuild.googleapis.com`). -/
theorem C1_requiredApis_counterexample :
    "cloudfunctions.googleapis.com" ∈ requiredApis true true true false ∧
    (requiredApis true true true true).count "cloudfunctions.googleapis.com" = 2 ∧
    (requiredApis true true true true).count "cloudbuild.googleapis.com" = 2 := by
  decide

/-- C1 (amended): for every flag combination, the multiset of requested
APIs is: the eight baseline entries once each — except that
`cloudfunctions` and `cloudbuild`, being both baseline members and
functions-gated, appear twice when `enableFunctions` is true —
`identitytoolkit` exactly when `enableAuth`, `firestore` exactly when
`enableFirestore`, the two storage APIs exactly when `enableStorage`, and
`run` exactly when `enableFunctions`. -/
theorem C1_requiredApis_amended
    (enableAuth enableFirestore enableStorage enableFunctions : Bool) :
    ((requiredApis enableAuth enableFirestore enableStorage enableFunctions).count
        "identitytoolkit.googleapis.com" = if enableAuth then 1 else 0) ∧
    ((requiredApis enableAuth enableFirestore enableStorage enableFunctions).count
        "firestore.googleapis.com" = if enableFirestore then 1 else 0) ∧
    ((requiredApis enableAuth enableFirestore enableStorage enableFunctions).count
        "storage.googleapis.com" = if enableStorage then 1 else 0) ∧
    ((requiredApis enableAuth enableFirestore enableStorage enableFunctions).count
        "storage-api.googleapis.com" = if enableStorage then 1 else 0) ∧
    ((requiredApis enableAuth enableFirestore enableStorage enableFunctions).count
        "cloudfunctions.googleapis.com" = if enableFunctions then 2 else 1) ∧
    ((requiredApis enableAuth enableFirestore enableStorage enableFunctions).count
        "cloudbuild.googleapis.com" = if enableFunctions then 2 else 1) ∧
    ((requiredApis enableAuth enableFirestore enableStorage enableFunctions).count
        "run.googleapis.com" = if enableFunctions then 1 else 0) ∧
    ((requiredApis enableAuth enableFirestore enableStorage enableFunctions).count
        "firebase.googleapis.com" = 1) ∧
    ((requiredApis enableAuth enableFirestore enableStorage enableFunctions).count
        "firebasehosting.googleapis.com" = 1) ∧
    ((requiredApis enableAuth enableFirestore enableStorage enableFunctions).count
        "cloudresourcemanager.googleapis.com" = 1) ∧
    ((requiredApis enableAuth enableFirestore enableStorage enableFunctions).count
        "serviceusage.googleapis.com" = 1) ∧
    ((requiredApis enableAuth enableFirestore enableStorage enableFunctions).count
        "iam.googleapis.com" = 1) ∧
    ((requiredApis enableAuth enableFirestore enableStorage enableFunctions).count
        "iamcredentials.googleapis.com" = 1) := by
  cases enableAuth <;> cases enableFirestore <;> cases enableStorage <;>
    cases enableFunctions <;> decide

/-! ## Claim C2 -/

/-- C2, counterexample: for the environment list `["dev", "DEV"]` (two
distinct environment names) the Secret Publisher does write 4·2+4 secrets,
but the names are not distinct: both environments uppercase to `DEV`, so
`FIREBASE_PROJECT_ID_DEV` (and the three sibling names) is written
twice. -/
theorem C2_secretNames_counterexample :
    (setupGitHubSecretWrites "owner/repo" ["dev", "DEV"]).length = 4 * 2 + 4 ∧
    ¬ (secretNamesOf "owner/repo" ["dev", "DEV"]).Nodup := by
  decide

/-- C2 (amended): for every repository identifier and non-empty
environment list of length N, the Secret Publisher writes exactly 4N+4
secrets — the four per-environment names (environment uppercased) for
each environment and the four shared names; whenever the uppercased
environment names are pairwise distinct, all names in one run are
distinct. -/
theorem C2_secretNames_amended (repository : String) (envs : List String)
    (_hne : envs ≠ []) (hnd : (envs.map jsToUpperCase).Nodup) :
    (setupGitHubSecretWrites repository envs).length = 4 * envs.length + 4 ∧
    (secretNamesOf repository envs).Nodup ∧
    (∀ e ∈ envs,
      "FIREBASE_PROJECT_ID_" ++ jsToUpperCase e ∈ secretNamesOf repository envs ∧
      "FIREBASE_SERVICE_ACCOUNT_" ++ jsToUpperCase e ∈ secretNamesOf repository envs ∧
      "GOOGLE_SERVICES_JSON_" ++ jsToUpperCase e ∈ secretNamesOf repository envs ∧
      "GOOGLE_SERVICES_PLIST_" ++ jsToUpperCase e ∈ secretNamesOf repository envs) ∧
    "ANDROID_KEYSTORE" ∈ secretNamesOf repository envs ∧
    "KEYSTORE_PASSWORD" ∈ secretNamesOf repository envs ∧
    "KEY_PASSWORD" ∈ secretNamesOf repository envs ∧
    "KEY_ALIAS" ∈ secretNamesOf repository envs := by
  refine ⟨setupGitHubSecretWrites_length repository envs,
    secretNames_nodup repository envs hnd, ?_, ?_, ?_, ?_, ?_⟩
  · intro e he
    rw [secretNamesOf_eq]
    refine ⟨?_, ?_, ?_, ?_⟩ <;>
      exact List.mem_append_left _
        (List.mem_flatMap.mpr ⟨e, he, by rw [perEnv_names_eq]; simp⟩)
  all_goals
    rw [secretNamesOf_eq]
    exact List.mem_append_right _ (by rw [shared_names_eq]; simp)

/-- Witness for C2 (amended) at `repository = "owner/repo"`,
`envs = ["dev", "prod"]`. -/
theorem C2_secretNames_amended_witness :
    (setupGitHubSecretWrites "owner/repo" ["dev", "prod"]).length = 4 * 2 + 4 ∧
    (secretNamesOf "owner/repo" ["dev", "prod"]).Nodup ∧
    "FIREBASE_PROJECT_ID_" ++ jsToUpperCase "dev" ∈ secretNamesOf "owner/repo" ["dev", "prod"] ∧
    "KEY_ALIAS" ∈ secretNamesOf "owner/repo" ["dev", "prod"] := by
  have h := C2_secretNames_amended "owner/repo" ["dev", "prod"] (by decide) (by decide)
  exact ⟨h.1, h.2.1, (h.2.2.1 "dev" (by decide)).1, h.2.2.2.2.2.2⟩

/-! ## Claim C4 -/

/-- C4: every environment's plan declares exactly one cloud-project
resource, and its protect flag is set exactly when the environment name is
`"prod"`; projects of all other environment names are unprotected. -/
theorem C4_project_protect (config : FirebaseEnvironmentConfig) :
    projectProtectFlags (createFirebaseEnvironmentPlan config)
      = [config.environment == "prod"] ∧
    ((config.environment == "prod") = true ↔ config.environment = "prod") := by
  obtain ⟨pn, env, ba, oi, ea, ef, efn, es, eh, apn, ibi, fr, fnr⟩ := config
  refine ⟨?_, beq_iff_eq⟩
  cases ea <;> cases ef <;> cases es <;> cases efn <;>
    simp [createFirebaseEnvironmentPlan, projectProtectFlags, requiredApis,
      serviceAccountRoles, List.filterMap_cons, List.filterMap_append]

/-! ## Claim C8 -/

/-- C8: with `enableFirestore = false` the plan contains no
database-provisioning call and no Firestore-rules deployment; with
`enableStorage = false` it contains no storage bucket and no storage-rules
deployment. -/
theorem C8_feature_flags_off (config : FirebaseEnvironmentConfig) :
    (config.enableFirestore = false →
      (createFirebaseEnvironmentPlan config).countP isFirestoreProvision = 0 ∧
      (createFirebaseEnvironmentPlan config).countP isFirestoreRulesDeploy = 0) ∧
    (config.enableStorage = false →
      (createFirebaseEnvironmentPlan config).countP isStorageBucketCreate = 0 ∧
      (createFirebaseEnvironmentPlan config).countP isStorageRulesDeploy = 0) := by
  obtain ⟨pn, env, ba, oi, ea, ef, efn, es, eh, apn, ibi, fr, fnr⟩ := config
  constructor
  · rintro rfl
    cases ea <;> cases es <;> cases efn <;>
      simp [createFirebaseEnvironmentPlan, requiredApis, serviceAccountRoles,
        isFirestoreProvision, isFirestoreRulesDeploy,
        List.countP_append, List.countP_cons]
  · rintro rfl
    cases ea <;> cases ef <;> cases efn <;>
      simp [createFirebaseEnvironmentPlan, requiredApis, serviceAccountRoles,
        isStorageBucketCreate, isStorageRulesDeploy,
        List.countP_append, List.countP_cons]

/-- Witness for C8 at a concrete configuration with both flags off. -/
theorem C8_feature_flags_off_witness :
    ((createFirebaseEnvironmentPlan
        ⟨"acme-dev", "dev", none, none, true, false, true, false, false,
         "com.acme.app.dev", "com.acme.app.dev", "eur3", "europe-west1"⟩).countP
      isFirestoreProvision = 0) ∧
    ((createFirebaseEnvironmentPlan
        ⟨"acme-dev", "dev", none, none, true, false, true, false, false,
         "com.acme.app.dev", "com.acme.app.dev", "eur3", "europe-west1"⟩).countP
      isFirestoreRulesDeploy = 0) ∧
    ((createFirebaseEnvironmentPlan
        ⟨"acme-dev", "dev", none, none, true, false, true, false, false,
         "com.acme.app.dev", "com.acme.app.dev", "eur3", "europe-west1"⟩).countP
      isStorageBucketCreate = 0) ∧
    ((createFirebaseEnvironmentPlan
        ⟨"acme-dev", "dev", none, none, true, false, true, false, false,
         "com.acme.app.dev", "com.acme.app.dev", "eur3", "europe-west1"⟩).countP
      isStorageRulesDeploy = 0) := by
  have h := C8_feature_flags_off
    ⟨"acme-dev", "dev", none, none, true, false, true, false, false,
     "com.acme.app.dev", "com.acme.app.dev", "eur3", "europe-west1"⟩
  exact ⟨(h.1 rfl).1, (h.1 rfl).2, (h.2 rfl).1, (h.2 rfl).2⟩

/-! ## Claim C3 -/

/-- Helper: a character of a validated project name, after underscore
sanitization, is neither an ASCII uppercase letter nor an underscore. -/
theorem sanitize_char_ok (c : Char)
    (h : (97 ≤ c.toNat ∧ c.toNat ≤ 122) ∨ (48 ≤ c.toNat ∧ c.toNat ≤ 57) ∨ c = '_') :
    (¬ (65 ≤ (if c = '_' then '-' else c).toNat
        ∧ (if c = '_' then '-' else c).toNat ≤ 90))
    ∧ (if c = '_' then '-' else c) ≠ '_' := by
  by_cases hc : c = '_'
  · subst hc
    exact ⟨by decide, by decide⟩
  · rw [if_neg hc]
    rcases h with h | h | h
    · exact ⟨by omega, hc⟩
    · exact ⟨by omega, hc⟩
    · exact absurd h hc

/-- Helper: every character of a sanitized validated project name is
neither an ASCII uppercase letter nor an underscore. -/
theorem sanitize_all_ok (raw : String) (hval : validate_project_name raw = true) :
    ∀ c ∈ (sanitizeProjectBase raw).data,
      (¬ (65 ≤ c.toNat ∧ c.toNat ≤ 90)) ∧ c ≠ '_' := by
  intro c hc
  rw [sanitizeProjectBase] at hc
  obtain ⟨a, ha, rfl⟩ := List.mem_map.mp hc
  apply sanitize_char_ok
  rcases hd : raw.data with _ | ⟨c₀, cs⟩
  · rw [validate_project_name, hd] at hval
    exact absurd hval (by decide)
  · rw [validate_project_name, hd] at hval
    simp only [Bool.and_eq_true, Bool.or_eq_true, decide_eq_true_eq,
      List.all_eq_true, beq_iff_eq] at hval
    rw [hd] at ha
    rcases List.mem_cons.mp ha with rfl | ha
    · rcases hval.1 with h | h
      · exact Or.inl h
      · exact Or.inr (Or.inr h)
    · rcases hval.2 a ha with (h | h) | h
      · exact Or.inl h
      · exact Or.inr (Or.inl h)
      · exact Or.inr (Or.inr h)

/-- C3: for every valid pair — a project base name obtained by
sanitizing a name accepted by `validate_project_name`, and one of the
configured environment names — the derived cloud project id is exactly
`baseName ++ "-" ++ env`, is a pure function of its two inputs, contains
no ASCII uppercase letter, and contains no underscore. -/
theorem C3_projectName (base env : String)
    (hbase : ∃ raw, validate_project_name raw = true ∧ base = sanitizeProjectBase raw)
    (henv : env ∈ ["dev", "staging", "prod"]) :
    projectNameFor base env = base ++ "-" ++ env ∧
    (∀ b e : String, b = base → e = env → projectNameFor b e = projectNameFor base env) ∧
    isLowercaseStr (projectNameFor base env) = true ∧
    noUnderscore (projectNameFor base env) = true := by
  obtain ⟨raw, hval, rfl⟩ := hbase
  have hall := sanitize_all_ok raw hval
  have henvOk : ∀ c ∈ env.data, (¬ (65 ≤ c.toNat ∧ c.toNat ≤ 90)) ∧ c ≠ '_' := by
    simp only [List.mem_cons, List.not_mem_nil, or_false] at henv
    rcases henv with rfl | rfl | rfl <;> decide
  refine ⟨rfl, fun b e hb he => by rw [hb, he], ?_, ?_⟩
  · rw [isLowercaseStr, projectNameFor, String.data_append, String.data_append,
      List.all_append, List.all_append]
    simp only [Bool.and_eq_true]
    refine ⟨⟨?_, by decide⟩, ?_⟩
    · exact List.all_eq_true.mpr fun c hc => by
        have := (hall c hc).1
        simp only [Bool.not_eq_eq_eq_not, Bool.not_true, Bool.and_eq_true,
          decide_eq_true_eq, Bool.not_eq_true]
        simp only [Bool.and_eq_false_iff, decide_eq_false_iff_not]
        omega
    · exact List.all_eq_true.mpr fun c hc => by
        have := (henvOk c hc).1
        simp only [Bool.not_eq_eq_eq_not, Bool.not_true, Bool.and_eq_false_iff,
          decide_eq_false_iff_not]
        omega
  · rw [noUnderscore, projectNameFor, String.data_append, String.data_append,
      List.all_append, List.all_append]
    simp only [Bool.and_eq_true]
    refine ⟨⟨?_, by decide⟩, ?_⟩
    · exact List.all_eq_true.mpr fun c hc => by
        simpa [bne_iff_ne] using (hall c hc).2
    · exact List.all_eq_true.mpr fun c hc => by
        simpa [bne_iff_ne] using (henvOk c hc).2

/-- Witness for C3 at `baseName = sanitizeProjectBase "my_app" = "my-app"`,
`env = "dev"`. -/
theorem C3_projectName_witness :
    projectNameFor "my-app" "dev" = "my-app" ++ "-" ++ "dev" ∧
    projectNameFor "my-app" "dev" = projectNameFor "my-app" "dev" ∧
    isLowercaseStr (projectNameFor "my-app" "dev") = true ∧
    noUnderscore (projectNameFor "my-app" "dev") = true := by
  have h := C3_projectName "my-app" "dev"
    ⟨"my_app", by decide, by decide⟩ (by decide)
  exact ⟨h.1, h.2.1 "my-app" "dev" rfl rfl, h.2.2.1, h.2.2.2⟩

/-! ## Claim C5 -/

/-- C5: the web-API-key extraction is a total function of the parse
outcome (it never aborts the run): on any parse failure it returns the
empty string, and whenever the parsed value holds a string `apiKey` under
`sdkConfig` it returns exactly that key's value. -/
theorem C5_webApiKey (r : Except String Json) :
    (∀ e, r = Except.error e → extractWebApiKey r = "") ∧
    (∀ parsed s, r = Except.ok parsed →
      sdkConfigApiKey parsed = some (Json.str s) → extractWebApiKey r = s) := by
  constructor
  · rintro e rfl
    rfl
  · rintro parsed s rfl hs
    rw [extractWebApiKey, hs]
    show (if s = "" then "" else s) = s
    by_cases h : s = ""
    · rw [if_pos h, h]
    · rw [if_neg h]

/-- Witness for C5: a failed parse yields `""`; a config holding
`sdkConfig.apiKey = "AIzaTestKey"` yields that key. -/
theorem C5_webApiKey_witness :
    extractWebApiKey (Except.error "Unexpected token") = "" ∧
    extractWebApiKey (Except.ok (Json.obj
      [("sdkConfig", Json.obj [("apiKey", Json.str "AIzaTestKey")])])) = "AIzaTestKey" := by
  refine ⟨(C5_webApiKey (Except.error "Unexpected token")).1 "Unexpected token" rfl,
    (C5_webApiKey _).2 _ "AIzaTestKey" rfl rfl⟩

/-! ## Claim C6 -/

/-- C6, counterexample: the claim "on every exit path the intermediate
keystore file is deleted before the generator returns" fails on the code:
when `keytool` succeeds but the base64 conversion step fails, the cleanup
command (which depends on the base64 step) never runs and the keystore
file stays on disk. -/
theorem C6_keystore_counterexample :
    keystoreFileRemains ⟨true, false, true⟩ = true := rfl

/-- C6 (amended): the keystore file is deleted exactly on the paths where
the cleanup command runs and succeeds — it remains on disk precisely when
keystore generation succeeded and then the base64 step or the cleanup
command itself failed; on the full-success path it is always deleted. -/
theorem C6_keystore_amended (o : KeystoreRunOutcome) :
    keystoreFileRemains o = (o.keytoolOk && (!o.base64Ok || !o.cleanupOk)) := by
  obtain ⟨a, b, c⟩ := o
  cases a <;> cases b <;> cases c <;> rfl

/-! ## Claim C7 -/

theorem resolveAll_isSome_iff (xs : List (Option String)) :
    (resolveAll xs).isSome = xs.all Option.isSome := by
  induction xs with
  | nil => rfl
  | cons x rest ih =>
      cases x
      · rfl
      · simp only [resolveAll, List.all_cons, Option.isSome_some, Bool.true_and, ← ih]
        cases resolveAll rest <;> rfl

theorem resolveAll_length (xs : List (Option String)) (l : List String)
    (h : resolveAll xs = some l) : l.length = xs.length := by
  induction xs generalizing l with
  | nil =>
      rw [resolveAll] at h
      cases h
      rfl
  | cons x rest ih =>
      cases x
      · exact absurd h (by rw [resolveAll]; exact Option.noConfusion)
      · rw [resolveAll] at h
        rcases hr : resolveAll rest with _ | tail
        · rw [hr] at h
          exact absurd h (by exact Option.noConfusion)
        · rw [hr] at h
          cases h
          simp [ih tail hr]

/-- C7: over the declared 4N+4 secret writes of one publisher run,
`secretsConfigured` resolves to `true` exactly when every single write
succeeded, and resolves to no value as soon as any write failed — so its
returned value separates an all-writes-succeeded run from a run with a
failed write, and success is reported only once every write completed. -/
theorem C7_secretsConfigured (envs : List String) (outcomes : List (Option String))
    (hlen : outcomes.length = 4 * envs.length + 4) :
    (secretsConfiguredOf outcomes = some true ↔ outcomes.all Option.isSome = true) ∧
    (outcomes.all Option.isSome = false → secretsConfiguredOf outcomes = none) := by
  have hiff := resolveAll_isSome_iff outcomes
  constructor
  · constructor
    · intro h
      rcases hr : resolveAll outcomes with _ | l
      · rw [secretsConfiguredOf, hr] at h
        exact absurd h (by simp)
      · rw [← hiff, hr]
        rfl
    · intro h
      have hs : (resolveAll outcomes).isSome = true := by rw [hiff, h]
      rcases hr : resolveAll outcomes with _ | l
      · rw [hr] at hs
        exact absurd hs (by simp)
      · have hl := resolveAll_length outcomes l hr
        rw [secretsConfiguredOf, hr]
        have hpos : 0 < l.length := by omega
        simp [hpos]
  · intro h
    have hs : (resolveAll outcomes).isSome = false := by rw [hiff, h]
    rcases hr : resolveAll outcomes with _ | l
    · rw [secretsConfiguredOf, hr]
      rfl
    · rw [hr] at hs
      exact absurd hs (by simp)

/-- Witness for C7 at one environment (eight writes), all successful. -/
theorem C7_secretsConfigured_witness :
    (secretsConfiguredOf
        [some "1", some "2", some "3", some "4",
         some "5", some "6", some "7", some "8"] = some true
      ↔ ([some "1", some "2", some "3", some "4",
          some "5", some "6", some "7", some "8"].all Option.isSome) = true) ∧
    (([some "1", some "2", some "3", some "4",
       some "5", some "6", some "7", some "8"].all Option.isSome) = false →
      secretsConfiguredOf
        [some "1", some "2", some "3", some "4",
         some "5", some "6", some "7", some "8"] = none) :=
  C7_secretsConfigured ["dev"]
    [some "1", some "2", some "3", some "4",
     some "5", some "6", some "7", some "8"] rfl

/-! ## Claim C9 -/

/-- C9: invoking the destroy subcommand on a stack identifier with no
stored stack state fails with exit status 1 and leaves the backend
unchanged — in particular, no new empty stack is created — regardless of
what the inner destroy operation would have done. -/
theorem C9_destroy_missing_stack (backend : PulumiBackend) (stackName : String)
    (stackDestroyOk : Bool) (h : stackName ∉ backend.stackNames) :
    destroyCmd backend stackName stackDestroyOk = (1, backend) := by
  rw [destroyCmd, selectStack, if_neg h]

/-- Witness for C9: destroying `"other-infra"` when only `"acme-infra"`
is stored. -/
theorem C9_destroy_missing_stack_witness :
    destroyCmd ⟨["acme-infra"]⟩ "other-infra" true = (1, ⟨["acme-infra"]⟩) :=
  C9_destroy_missing_stack ⟨["acme-infra"]⟩ "other-infra" true (by decide)

/-! ## Claim C10 -/

theorem splitSlashGo_no_slash (cs : List Char) (acc : List Char) (h : '/' ∉ cs) :
    splitSlashGo cs acc = [String.mk (acc.reverse ++ cs)] := by
  induction cs generalizing acc with
  | nil => simp [splitSlashGo]
  | cons c rest ih =>
      have hc : ¬ c = '/' := fun hc => h (by rw [hc]; exact List.mem_cons_self _ _)
      rw [splitSlashGo, if_neg hc, ih _ (fun hm => h (List.mem_cons_of_mem _ hm))]
      simp

theorem repoName_none_of_no_slash (s : String) (h : '/' ∉ s.data) :
    repoName s = none := by
  rw [repoName, splitSlash, splitSlashGo_no_slash s.data [] h]
  rfl

/-- Helper: every declared secret write carries the parsed `repo`
component as its repository argument. -/
theorem secretWrites_repository (repository : String) (envs : List String) :
    ∀ w ∈ setupGitHubSecretWrites repository envs,
      w.repository = repoName repository := by
  intro w hw
  rw [setupGitHubSecretWrites] at hw
  rcases List.mem_append.mp hw with hw | hw
  · obtain ⟨e, _, hm⟩ := List.mem_flatMap.mp hw
    simp only [perEnvSecretWrites, List.mem_cons, List.not_mem_nil, or_false] at hm
    rcases hm with rfl | rfl | rfl | rfl <;> rfl
  · simp only [sharedSecretWrites, List.mem_cons, List.not_mem_nil, or_false] at hw
    rcases hw with rfl | rfl | rfl | rfl <;> rfl

/-- C10, counterexample: the claim "all secrets are written against the
substring after the first `/`" fails on the code: for the identifier
`"a/b/c"` every write uses `"b"` — the second `split("/")` component —
while the substring after the first `/` is `"b/c"`. -/
theorem C10_repoSplit_counterexample :
    ((setupGitHubSecretWrites "a/b/c" ["dev"]).map SecretWrite.repository
      = List.replicate 8 (some "b")) ∧
    specAfterFirstSlash "a/b/c" = some "b/c" ∧
    some "b" ≠ some "b/c" := by
  decide

/-- C10 (amended): every secret write of a run uses, as its repository
argument, exactly the second component of splitting the identifier on
`/` (for a well-formed `owner/repo` identifier this is the substring
after its only slash); the owner component is never used — two
identifiers with the same second component yield identical writes; and an
identifier containing no `/` leaves the repository argument of every
write undefined. -/
theorem C10_repoSplit_amended (repository : String) (envs : List String) :
    (∀ w ∈ setupGitHubSecretWrites repository envs,
      w.repository = (splitSlash repository).get? 1) ∧
    (∀ other : String, repoName other = repoName repository →
      setupGitHubSecretWrites other envs = setupGitHubSecretWrites repository envs) ∧
    ('/' ∉ repository.data →
      ∀ w ∈ setupGitHubSecretWrites repository envs, w.repository = none) := by
  refine ⟨secretWrites_repository repository envs, ?_, ?_⟩
  · intro other hother
    rw [setupGitHubSecretWrites, setupGitHubSecretWrites, hother]
  · intro hns w hw
    rw [secretWrites_repository repository envs w hw,
      repoName_none_of_no_slash repository hns]

/-- Witness for C10 (amended) at `"owner/repo"` (write repository `"repo"`),
owner irrelevance (`"otherowner/repo"` vs `"owner/repo"`), and the
slash-free identifier `"plainname"`. -/
theorem C10_repoSplit_amended_witness :
    (setupGitHubSecretWrites "owner/repo" ["dev"]).map SecretWrite.repository
      = List.replicate 8 ((splitSlash "owner/repo").get? 1) ∧
    setupGitHubSecretWrites "otherowner/repo" ["dev"]
      = setupGitHubSecretWrites "owner/repo" ["dev"] ∧
    (setupGitHubSecretWrites "plainname" ["dev"]).map SecretWrite.repository
      = List.replicate 8 none := by
  have h1 := (C10_repoSplit_amended "owner/repo" ["dev"]).1
  have h2 := (C10_repoSplit_amended "owner/repo" ["dev"]).2.1 "otherowner/repo" (by decide)
  have h3 := (C10_repoSplit_amended "plainname" ["dev"]).2.2 (by decide)
  refine ⟨?_, h2, ?_⟩
  · rw [List.eq_replicate_iff]
    refine ⟨by decide, ?_⟩
    intro b hb
    obtain ⟨w, hw, rfl⟩ := List.mem_map.mp hb
    exact h1 w hw
  · rw [List.eq_replicate_iff]
    refine ⟨by decide, ?_⟩
    intro b hb
    obtain ⟨w, hw, rfl⟩ := List.mem_map.mp hb
    exact h3 w hw

end FirebaseStarter
